import Mathlib

/-!
Shallow embedding of the `emCircularBuffer` module (emCircularBuffer.c /
emCircularBuffer.h) and verification of its specification claims.

Modelling conventions:
* `size_t` values are modelled as `Nat`; wherever the C arithmetic can wrap
  (increment, decrement, the `headInd + 1` in the modulo expressions) the
  embedding applies an explicit `% sizeMod` with `sizeMod = 2^64`.
* Pointers are modelled as `Nat` addresses; the null pointer is address `0`.
  Pointer arithmetic `base + index * elemSize` is plain `Nat` arithmetic.
* The shipped port header (`emCircularPort.h`) has
  `CIRCULAR_USE_LOCK_MECHANISM 0`, so `emCircularPort_EnterCritical` expands
  to the constant `0` (lock acquisition never fails), `emCircularPort_InitBynSem`
  expands to `NULL`, and the `sem` field is inert; the embedding therefore
  omits the semaphore field and the (always-dead) `sem_retval != 0` branches.
* The functions operate on a `CBuffer` value, i.e. on a non-null buffer: the
  `buffer == NULL` entry guards of the C functions are outside this state-level
  embedding (no claim exercises a null handle except `emCircularInit`'s own
  return value, which is modelled by `InitResult`).
-/

/-- Modulus of `size_t` arithmetic (64-bit platform). -/
def sizeMod : Nat := 2 ^ 64

/-- The `CBStatus_t` enum from emCircularBuffer.h. -/
inductive CBStatus where
  | CB_error
  | CB_true
  | CB_false
deriving Repr, DecidableEq

/-- The `CBuffer_t` struct from emCircularBuffer.h (the inert `sem` field of
the lock-disabled port configuration is omitted). -/
structure CBuffer where
  tailInd : Nat
  headInd : Nat
  startBuffer : Nat
  elemSize : Nat
  maxElems : Nat
  NbElems : Nat
deriving Repr, DecidableEq

/-- Outcome of `emCircularInit`: a non-null handle, a `NULL` return, or a
write through a null struct pointer (undefined behavior in the C source). -/
inductive InitResult where
  | ok (b : CBuffer)
  | nullHandle
  | nullDeref
deriving Repr, DecidableEq

/-- `emCircularInit` from emCircularBuffer.c. The two `emCircularPortMalloc`
outcomes are passed in as parameters (`some addr` = allocation succeeded at
`addr`, `none` = allocation returned `NULL`). The C source checks neither
malloc result: a failed struct allocation leads to a store through a null
pointer (`retval->headInd = 0`), and a failed storage allocation is stored
as a null `startBuffer` in an otherwise normally returned handle. With the
lock mechanism disabled, `retval->sem` is set to `NULL` and not checked. -/
def emCircularInit (structAlloc storageAlloc : Option Nat)
    (maxElems elemSize : Nat) : InitResult :=
  if maxElems < 2 then .nullHandle
  else if elemSize < 1 then .nullHandle
  else
    match structAlloc with
    | none => .nullDeref
    | some _ =>
      let buffer : Nat := match storageAlloc with | none => 0 | some a => a
      .ok { tailInd := 0, headInd := 0, startBuffer := buffer,
            elemSize := elemSize, maxElems := maxElems, NbElems := 0 }

/-- The state produced by a successful `emCircularInit` with storage at
`base`: `headInd = tailInd = NbElems = 0`. -/
def freshBuffer (base maxElems elemSize : Nat) : CBuffer :=
  { tailInd := 0, headInd := 0, startBuffer := base,
    elemSize := elemSize, maxElems := maxElems, NbElems := 0 }

/-- `emCircularIsEmpty` from emCircularBuffer.c (non-null buffer, lock
acquisition always succeeds): `CB_true` iff `headInd == tailInd`. -/
def emCircularIsEmpty (b : CBuffer) : CBStatus :=
  if b.headInd = b.tailInd then .CB_true else .CB_false

/-- `emCircularIsFull` from emCircularBuffer.c (non-null buffer, lock
acquisition always succeeds): `CB_true` iff
`(headInd + 1) % maxElems == tailInd`, the `headInd + 1` wrapping as
`size_t`. -/
def emCircularIsFull (b : CBuffer) : CBStatus :=
  if ((b.headInd + 1) % sizeMod) % b.maxElems = b.tailInd then .CB_true
  else .CB_false

/-- `emCircularGetRemainingSpace` from emCircularBuffer.c (non-null buffer,
lock acquisition always succeeds): `maxElems - NbElems` when
`maxElems >= NbElems`, else the defensive `0`. -/
def emCircularGetRemainingSpace (b : CBuffer) : Nat :=
  if b.maxElems ≥ b.NbElems then b.maxElems - b.NbElems else 0

/-- `emCircularGetHead` from emCircularBuffer.c: returns the produced slot
pointer (`none` = `NULL`) together with the post-call buffer state. The
switch on `emCircularIsFull` returns `NULL` on `CB_true` and `CB_error`;
otherwise the slot pointer `startBuffer + headInd * elemSize` is computed,
`headInd` advances modulo `maxElems`, `NbElems` is incremented, and the
defensive check `NbElems > maxElems` downgrades the result to `NULL`
without rolling the mutation back. -/
def emCircularGetHead (b : CBuffer) : Option Nat × CBuffer :=
  match emCircularIsFull b with
  | .CB_true => (none, b)
  | .CB_error => (none, b)
  | .CB_false =>
    let retval := b.startBuffer + b.headInd * b.elemSize
    let newHead := ((b.headInd + 1) % sizeMod) % b.maxElems
    let newCount := (b.NbElems + 1) % sizeMod
    let b' : CBuffer := { b with headInd := newHead, NbElems := newCount }
    if newCount > b.maxElems then (none, b') else (some retval, b')

/-- `emCircularGetTail` from emCircularBuffer.c: returns the consumed slot
pointer (`none` = `NULL`) together with the post-call buffer state. The
switch on `emCircularIsEmpty` returns `NULL` on `CB_true` and `CB_error`;
otherwise the slot pointer `startBuffer + tailInd * elemSize` is computed,
`tailInd` advances modulo `maxElems`, `NbElems` is decremented (wrapping as
the unsigned `size_t` it is), and the C source's defensive check
`NbElems < 0` — an unsigned value compared against zero — downgrades the
result to `NULL` when it holds. -/
def emCircularGetTail (b : CBuffer) : Option Nat × CBuffer :=
  match emCircularIsEmpty b with
  | .CB_true => (none, b)
  | .CB_error => (none, b)
  | .CB_false =>
    let retval := b.startBuffer + b.tailInd * b.elemSize
    let newTail := ((b.tailInd + 1) % sizeMod) % b.maxElems
    let newCount := (b.NbElems + sizeMod - 1) % sizeMod
    let b' : CBuffer := { b with tailInd := newTail, NbElems := newCount }
    if newCount < 0 then (none, b') else (some retval, b')

/-- Iterated producer acquisition: perform `n` `emCircularGetHead` calls,
collecting the returned pointers in order. -/
def produceN (b : CBuffer) : Nat → List (Option Nat) × CBuffer
  | 0 => ([], b)
  | n + 1 =>
    let r := emCircularGetHead b
    let rest := produceN r.2 n
    (r.1 :: rest.1, rest.2)

/-- A single-threaded client operation on the buffer. -/
inductive CBOp where
  | produce
  | consume
deriving Repr, DecidableEq

/-- Run one client operation. -/
def runOp (b : CBuffer) : CBOp → Option Nat × CBuffer
  | .produce => emCircularGetHead b
  | .consume => emCircularGetTail b

/-- Final state after a sequence of client operations. -/
def runOps (b : CBuffer) : List CBOp → CBuffer
  | [] => b
  | op :: rest => runOps (runOp b op).2 rest

/-- Whether every operation in the sequence returns a non-null pointer. -/
def runOk (b : CBuffer) : List CBOp → Bool
  | [] => true
  | op :: rest =>
    let r := runOp b op
    r.1.isSome && runOk r.2 rest

/-- Run a sequence of client operations, collecting the pointers returned by
the successful producer acquisitions and by the successful consumer
acquisitions, each in call order, together with the final state. -/
def runTrace (b : CBuffer) : List CBOp → List Nat × List Nat × CBuffer
  | [] => ([], [], b)
  | .produce :: rest =>
    let r := emCircularGetHead b
    let t := runTrace r.2 rest
    match r.1 with
    | some p => (p :: t.1, t.2.1, t.2.2)
    | none => t
  | .consume :: rest =>
    let r := emCircularGetTail b
    let t := runTrace r.2 rest
    match r.1 with
    | some p => (t.1, p :: t.2.1, t.2.2)
    | none => t

/-- Canonical buffer state after `p` successful producer acquisitions and
`c` successful consumer acquisitions from a fresh buffer. -/
def ringState (base e C p c : Nat) : CBuffer :=
  { tailInd := c % C, headInd := p % C, startBuffer := base,
    elemSize := e, maxElems := C, NbElems := p - c }

/-!
Basic behavioral theorems (claims C5, C6, C8, C9) and concrete evaluations
of the construction and remaining-space code paths (claims C3, C4, C7).
-/

/-- C6: For every empty buffer (`headInd == tailInd`), `emCircularGetTail`
returns `NULL` and leaves the buffer state (head, tail, count) unchanged. -/
theorem getTail_empty_noop (b : CBuffer) (h : b.headInd = b.tailInd) :
    emCircularGetTail b = (none, b) := by
  unfold emCircularGetTail emCircularIsEmpty
  rw [if_pos h]

/-- Witness for `getTail_empty_noop` at a concrete fresh buffer. -/
theorem getTail_empty_noop_witness :
    emCircularGetTail (freshBuffer 0 2 1) = (none, freshBuffer 0 2 1) :=
  getTail_empty_noop (freshBuffer 0 2 1) rfl

/-- C9: The defensive guard `NbElems < 0` in `emCircularGetTail` compares an
unsigned counter against zero and can never trigger: for every input state,
`emCircularGetTail` returns `NULL` exactly when the buffer is empty
(`emCircularIsEmpty` returns `CB_true`), never because of that guard; on a
non-empty buffer it always returns the tail slot pointer. -/
theorem getTail_underflow_guard_never_fires (b : CBuffer) :
    ((emCircularGetTail b).1 = none ↔ emCircularIsEmpty b = .CB_true) ∧
    (emCircularIsEmpty b = .CB_false →
      (emCircularGetTail b).1 = some (b.startBuffer + b.tailInd * b.elemSize)) := by
  unfold emCircularGetTail emCircularIsEmpty
  by_cases h : b.headInd = b.tailInd <;> simp [h]

/-- C5: On every non-full buffer satisfying the data-model invariants
(`NbElems < maxElems`, `headInd < maxElems`, fields in `size_t` range),
`emCircularGetHead` returns the pointer `startBuffer + headInd * elemSize`
computed from the pre-call head, advances `headInd` to
`(headInd + 1) % maxElems`, increments `NbElems` by one, and leaves
`tailInd` unchanged. -/
theorem getHead_not_full_spec (b : CBuffer)
    (hfull : emCircularIsFull b = .CB_false)
    (hcnt : b.NbElems < b.maxElems)
    (hhead : b.headInd < b.maxElems)
    (hmax : b.maxElems < sizeMod) :
    emCircularGetHead b =
      (some (b.startBuffer + b.headInd * b.elemSize),
       { b with headInd := (b.headInd + 1) % b.maxElems,
                NbElems := b.NbElems + 1 }) := by
  unfold emCircularGetHead
  rw [hfull]
  have h1 : (b.headInd + 1) % sizeMod = b.headInd + 1 :=
    Nat.mod_eq_of_lt (by omega)
  have h2 : (b.NbElems + 1) % sizeMod = b.NbElems + 1 :=
    Nat.mod_eq_of_lt (by omega)
  rw [h1, h2, if_neg (by omega)]

/-- Witness for `getHead_not_full_spec` at a concrete fresh buffer. -/
theorem getHead_not_full_spec_witness :
    emCircularGetHead (freshBuffer 0 3 1) =
      (some 0, { freshBuffer 0 3 1 with headInd := 1 % 3, NbElems := 1 }) :=
  getHead_not_full_spec (freshBuffer 0 3 1) (by decide) (by decide)
    (by decide) (by decide)

/-- C8: In `emCircularGetHead`, when the incremented counter exceeds
`maxElems`, the call returns `NULL` instead of the computed slot pointer,
while `NbElems` stays incremented and `headInd` stays advanced (and
`tailInd` is unchanged): the mutation is not rolled back. -/
theorem getHead_corrupt_no_rollback (b : CBuffer)
    (hfull : emCircularIsFull b = .CB_false)
    (hcorrupt : (b.NbElems + 1) % sizeMod > b.maxElems) :
    emCircularGetHead b =
      (none,
       { b with headInd := ((b.headInd + 1) % sizeMod) % b.maxElems,
                NbElems := (b.NbElems + 1) % sizeMod }) := by
  unfold emCircularGetHead
  rw [hfull]
  exact if_pos hcorrupt

/-- Witness for `getHead_corrupt_no_rollback` at a concrete corrupted state
(capacity 3, count 5, head 0, tail 2: not full by the index test, counter
already beyond capacity). -/
theorem getHead_corrupt_no_rollback_witness :
    emCircularGetHead
        { tailInd := 2, headInd := 0, startBuffer := 0,
          elemSize := 1, maxElems := 3, NbElems := 5 } =
      (none,
       { tailInd := 2, headInd := ((0 + 1) % sizeMod) % 3, startBuffer := 0,
         elemSize := 1, maxElems := 3, NbElems := (5 + 1) % sizeMod }) :=
  getHead_corrupt_no_rollback
    { tailInd := 2, headInd := 0, startBuffer := 0,
      elemSize := 1, maxElems := 3, NbElems := 5 }
    (by decide) (by decide)

/-- C7 (code bug): `emCircularInit` does not check either allocation. When
the storage allocation fails (capacity 2, element size 1, struct allocated
at 4096, storage malloc returns `NULL`), it returns a NON-null handle whose
`startBuffer` is the null pointer instead of returning `NULL`; when the
struct allocation itself fails, it writes through a null pointer instead of
returning `NULL`. The parameter-validation cases do return `NULL`. -/
theorem init_alloc_failure_bug :
    emCircularInit (some 4096) none 2 1 = .ok (freshBuffer 0 2 1) ∧
    emCircularInit none (some 4096) 2 1 = .nullDeref ∧
    emCircularInit (some 4096) (some 4096) 1 5 = .nullHandle ∧
    emCircularInit (some 4096) (some 4096) 0 5 = .nullHandle ∧
    emCircularInit (some 4096) (some 4096) 2 0 = .nullHandle := by
  refine ⟨rfl, rfl, rfl, rfl, rfl⟩

/-- C3 (code bug): a freshly created buffer (capacity 2, element size 1)
reports empty = `CB_true` and full = `CB_false` as claimed, but
`emCircularGetRemainingSpace` returns `maxElems - NbElems = 2`, the full
capacity, not `capacity - 1 = 1`. -/
theorem fresh_remaining_space_bug :
    emCircularInit (some 4096) (some 32) 2 1 = .ok (freshBuffer 32 2 1) ∧
    emCircularIsEmpty (freshBuffer 32 2 1) = .CB_true ∧
    emCircularIsFull (freshBuffer 32 2 1) = .CB_false ∧
    emCircularGetRemainingSpace (freshBuffer 32 2 1) = 2 := by
  refine ⟨rfl, by decide, by decide, by decide⟩

/-- C4 (code bug): on a fresh buffer of capacity 2,
`emCircularGetRemainingSpace` returns `capacity - count = 2`, yet only one
further `emCircularGetHead` call succeeds: the first returns a slot, the
second returns `NULL` because the buffer is already full. The returned
value over-reports the guaranteed successful producer acquisitions by one. -/
theorem remaining_space_overcounts_bug :
    emCircularGetRemainingSpace (freshBuffer 0 2 1) = 2 ∧
    (emCircularGetHead (freshBuffer 0 2 1)).1 = some 0 ∧
    (emCircularGetHead (emCircularGetHead (freshBuffer 0 2 1)).2).1 = none := by
  refine ⟨by decide, by decide, by decide⟩

/-!
Ring-state machinery shared by the iteration claims (C1, C2, C10): every
state reachable from a fresh buffer is `ringState base e C p c` for the
numbers `p`/`c` of successful producer/consumer acquisitions so far.
-/

theorem sizeMod_pos : 0 < sizeMod := by norm_num [sizeMod]

/-- Two counters with distance below the modulus are congruent iff equal. -/
theorem mod_eq_mod_iff_of_small (p c C : Nat) (hC : 0 < C) (hcp : c ≤ p)
    (h : p - c < C) : p % C = c % C ↔ p = c := by
  constructor
  · intro h1
    by_contra hne
    have hdvd : C ∣ p - c := (Nat.modEq_iff_dvd' hcp).mp h1.symm
    have hle := Nat.le_of_dvd (by omega) hdvd
    omega
  · intro h1
    rw [h1]

theorem isFull_ringState_lt (base e C p c : Nat) (hC : 2 ≤ C)
    (hCm : C < sizeMod) (hcp : c ≤ p) (hlt : p - c < C - 1) :
    emCircularIsFull (ringState base e C p c) = .CB_false := by
  have hpc : p % C < C := Nat.mod_lt _ (by omega)
  have hcond : ((p % C + 1) % sizeMod) % C ≠ c % C := by
    rw [Nat.mod_eq_of_lt (show p % C + 1 < sizeMod by omega), Nat.mod_add_mod]
    intro h
    have := (mod_eq_mod_iff_of_small (p + 1) c C (by omega) (by omega)
      (by omega)).mp h
    omega
  simp only [emCircularIsFull, ringState, if_neg hcond]

theorem isFull_ringState_eq (base e C p c : Nat) (hC : 2 ≤ C)
    (hCm : C < sizeMod) (hcp : c ≤ p) (heq : p - c = C - 1) :
    emCircularIsFull (ringState base e C p c) = .CB_true := by
  have hpc : p % C < C := Nat.mod_lt _ (by omega)
  have hcond : ((p % C + 1) % sizeMod) % C = c % C := by
    rw [Nat.mod_eq_of_lt (show p % C + 1 < sizeMod by omega), Nat.mod_add_mod,
      show p + 1 = c + C by omega, Nat.add_mod_right]
  simp only [emCircularIsFull, ringState, if_pos hcond]

theorem isEmpty_ringState_zero (base e C p : Nat) :
    emCircularIsEmpty (ringState base e C p p) = .CB_true := by
  simp [emCircularIsEmpty, ringState]

theorem isEmpty_ringState_pos (base e C p c : Nat) (hC : 2 ≤ C)
    (hcp : c < p) (h : p - c ≤ C - 1) :
    emCircularIsEmpty (ringState base e C p c) = .CB_false := by
  have hcond : p % C ≠ c % C := by
    intro h1
    have := (mod_eq_mod_iff_of_small p c C (by omega) (by omega)
      (by omega)).mp h1
    omega
  simp only [emCircularIsEmpty, ringState, if_neg hcond]

/-- Producer step on a non-full canonical state: hands out the slot at
`head = p % C` and moves to the canonical state for `p + 1` produces. -/
theorem getHead_ringState_succ (base e C p c : Nat) (hC : 2 ≤ C)
    (hCm : C < sizeMod) (hcp : c ≤ p) (hlt : p - c < C - 1) :
    emCircularGetHead (ringState base e C p c) =
      (some (base + p % C * e), ringState base e C (p + 1) c) := by
  have hpc : p % C < C := Nat.mod_lt _ (by omega)
  unfold emCircularGetHead
  rw [isFull_ringState_lt base e C p c hC hCm hcp hlt]
  simp only [ringState]
  rw [Nat.mod_eq_of_lt (show p % C + 1 < sizeMod by omega), Nat.mod_add_mod,
    Nat.mod_eq_of_lt (show p - c + 1 < sizeMod by omega),
    if_neg (show ¬ p - c + 1 > C by omega)]
  simp only [Prod.mk.injEq, CBuffer.mk.injEq, true_and, and_true]
  omega

/-- Producer step on a full canonical state: returns `NULL`, state
unchanged. -/
theorem getHead_ringState_full (base e C p c : Nat) (hC : 2 ≤ C)
    (hCm : C < sizeMod) (hcp : c ≤ p) (heq : p - c = C - 1) :
    emCircularGetHead (ringState base e C p c) =
      (none, ringState base e C p c) := by
  unfold emCircularGetHead
  rw [isFull_ringState_eq base e C p c hC hCm hcp heq]

/-- Consumer step on a non-empty canonical state: hands out the slot at
`tail = c % C` and moves to the canonical state for `c + 1` consumes. -/
theorem getTail_ringState_succ (base e C p c : Nat) (hC : 2 ≤ C)
    (hCm : C < sizeMod) (hcp : c < p) (hle : p - c ≤ C - 1) :
    emCircularGetTail (ringState base e C p c) =
      (some (base + c % C * e), ringState base e C p (c + 1)) := by
  have hcc : c % C < C := Nat.mod_lt _ (by omega)
  unfold emCircularGetTail
  rw [isEmpty_ringState_pos base e C p c hC hcp hle]
  simp only [ringState]
  rw [Nat.mod_eq_of_lt (show c % C + 1 < sizeMod by omega), Nat.mod_add_mod,
    show p - c + sizeMod - 1 = (p - c - 1) + sizeMod by
      have := sizeMod_pos; omega,
    Nat.add_mod_right,
    Nat.mod_eq_of_lt (show p - c - 1 < sizeMod by
      have := sizeMod_pos; omega),
    if_neg (Nat.not_lt_zero _)]
  simp only [Prod.mk.injEq, CBuffer.mk.injEq, true_and, and_true]
  omega

/-- Consumer step on an empty canonical state: returns `NULL`, state
unchanged. -/
theorem getTail_ringState_empty (base e C p : Nat) :
    emCircularGetTail (ringState base e C p p) =
      (none, ringState base e C p p) := by
  unfold emCircularGetTail
  rw [isEmpty_ringState_zero]

/-- Characterization of `n` successive producer acquisitions starting from
the canonical all-produced state `ringState base e C j 0`, as long as the
buffer never fills: every call succeeds and returns consecutive slots. -/
theorem produceN_ringState (base e C : Nat) (hC : 2 ≤ C) (hCm : C < sizeMod) :
    ∀ n j, j + n ≤ C - 1 →
      produceN (ringState base e C j 0) n =
        ((List.range n).map (fun i => some (base + (j + i) * e)),
         ringState base e C (j + n) 0) := by
  intro n
  induction n with
  | zero =>
    intro j h
    simp [produceN]
  | succ m ih =>
    intro j h
    unfold produceN
    rw [getHead_ringState_succ base e C j 0 hC hCm (Nat.zero_le _) (by omega)]
    dsimp only
    rw [ih (j + 1) (by omega)]
    have hfun : (fun i => some (base + (j + 1 + i) * e)) =
        (fun i => some (base + (j + (i + 1)) * e)) := by
      funext i
      rw [show j + 1 + i = j + (i + 1) by omega]
    simp only [List.range_succ_eq_map, List.map_cons, List.map_map,
      Prod.mk.injEq, List.cons.injEq]
    refine ⟨⟨?_, ?_⟩, ?_⟩
    · rw [Nat.mod_eq_of_lt (show j < C by omega), Nat.add_zero]
    · rw [hfun]
      rfl
    · rw [show j + 1 + m = j + (m + 1) by omega]

/-- C1: From a fresh buffer of capacity `C ≥ 2` (element size ≥ 1), the
first `C - 1` calls to `emCircularGetHead` all return a non-null slot
pointer (namely the consecutive slots `base + i * e`), the buffer reports
full (`emCircularIsFull = CB_true`) after the `(C-1)`-th call, and the
`C`-th producer acquisition returns `NULL`. -/
theorem getHead_fills_then_full (base e C : Nat) (hC : 2 ≤ C) (he : 1 ≤ e)
    (hCm : C < sizeMod) :
    (produceN (freshBuffer base C e) (C - 1)).1 =
        (List.range (C - 1)).map (fun i => some (base + i * e)) ∧
    (∀ x ∈ (produceN (freshBuffer base C e) (C - 1)).1, x ≠ none) ∧
    emCircularIsFull (produceN (freshBuffer base C e) (C - 1)).2 = .CB_true ∧
    (emCircularGetHead (produceN (freshBuffer base C e) (C - 1)).2).1 =
      none := by
  have hfresh : freshBuffer base C e = ringState base e C 0 0 := by
    simp [freshBuffer, ringState]
  rw [hfresh, produceN_ringState base e C hC hCm (C - 1) 0 (by omega)]
  have hzero : (0 : Nat) + (C - 1) = C - 1 := by omega
  refine ⟨by simp, by simp, ?_, ?_⟩
  · rw [hzero, isFull_ringState_eq base e C (C - 1) 0 hC hCm (Nat.zero_le _)
      (by omega)]
  · rw [hzero, getHead_ringState_full base e C (C - 1) 0 hC hCm (Nat.zero_le _)
      (by omega)]

/-- Witness for `getHead_fills_then_full` at capacity 4, element size 1. -/
theorem getHead_fills_then_full_witness :
    (produceN (freshBuffer 0 4 1) 3).1 =
        (List.range 3).map (fun i => some (0 + i * 1)) ∧
    (∀ x ∈ (produceN (freshBuffer 0 4 1) 3).1, x ≠ none) ∧
    emCircularIsFull (produceN (freshBuffer 0 4 1) 3).2 = .CB_true ∧
    (emCircularGetHead (produceN (freshBuffer 0 4 1) 3).2).1 = none :=
  getHead_fills_then_full 0 1 4 (by decide) (by decide) (by decide)

/-- Every sequence of client operations (successful or not) started on a
canonical ring state ends in a canonical ring state. -/
theorem runOps_ringState (base e C : Nat) (hC : 2 ≤ C) (hCm : C < sizeMod) :
    ∀ (ops : List CBOp) (p c : Nat), c ≤ p → p - c ≤ C - 1 →
      ∃ q d, d ≤ q ∧ q - d ≤ C - 1 ∧
        runOps (ringState base e C p c) ops = ringState base e C q d := by
  intro ops
  induction ops with
  | nil =>
    intro p c h1 h2
    exact ⟨p, c, h1, h2, rfl⟩
  | cons op rest ih =>
    intro p c h1 h2
    cases op with
    | produce =>
      by_cases hfull : p - c = C - 1
      · have hstep := getHead_ringState_full base e C p c hC hCm h1 hfull
        unfold runOps
        rw [show runOp (ringState base e C p c) CBOp.produce =
          emCircularGetHead (ringState base e C p c) from rfl, hstep]
        exact ih p c h1 h2
      · have hstep := getHead_ringState_succ base e C p c hC hCm h1 (by omega)
        unfold runOps
        rw [show runOp (ringState base e C p c) CBOp.produce =
          emCircularGetHead (ringState base e C p c) from rfl, hstep]
        exact ih (p + 1) c (by omega) (by omega)
    | consume =>
      by_cases hem : c = p
      · subst hem
        have hstep := getTail_ringState_empty base e C c
        unfold runOps
        rw [show runOp (ringState base e C c c) CBOp.consume =
          emCircularGetTail (ringState base e C c c) from rfl, hstep]
        exact ih c c le_rfl (by omega)
      · have hstep := getTail_ringState_succ base e C p c hC hCm
          (by omega) h2
        unfold runOps
        rw [show runOp (ringState base e C p c) CBOp.consume =
          emCircularGetTail (ringState base e C p c) from rfl, hstep]
        exact ih p (c + 1) (by omega) (by omega)

/-- C10: In every state reachable from a successful creation by a
single-threaded sequence of producer/consumer acquisitions (successful or
not), `headInd` and `tailInd` lie in `[0, maxElems)`, `NbElems` is at most
`maxElems - 1`, and `NbElems` equals `(headInd - tailInd) mod maxElems`:
the independently tracked counter never diverges from the indices. -/
theorem reachable_state_invariant (base e C : Nat) (ops : List CBOp)
    (hC : 2 ≤ C) (he : 1 ≤ e) (hCm : C < sizeMod) :
    (runOps (freshBuffer base C e) ops).headInd < C ∧
    (runOps (freshBuffer base C e) ops).tailInd < C ∧
    (runOps (freshBuffer base C e) ops).NbElems ≤ C - 1 ∧
    (((runOps (freshBuffer base C e) ops).headInd : ℤ) -
        ((runOps (freshBuffer base C e) ops).tailInd : ℤ)) % (C : ℤ) =
      ((runOps (freshBuffer base C e) ops).NbElems : ℤ) := by
  have hfresh : freshBuffer base C e = ringState base e C 0 0 := by
    simp [freshBuffer, ringState]
  obtain ⟨q, d, hdq, hqd, hrun⟩ :=
    runOps_ringState base e C hC hCm ops 0 0 le_rfl (by omega)
  rw [hfresh, hrun]
  simp only [ringState]
  refine ⟨Nat.mod_lt _ (by omega), Nat.mod_lt _ (by omega), by omega, ?_⟩
  push_cast [Nat.cast_sub hdq]
  rw [← Int.sub_emod]
  exact Int.emod_eq_of_lt (by omega) (by omega)

/-- Witness for `reachable_state_invariant` at capacity 3, element size 1,
on a sequence containing both failing and succeeding acquisitions. -/
theorem reachable_state_invariant_witness :
    (runOps (freshBuffer 0 3 1)
        [.consume, .produce, .produce, .produce, .consume]).headInd < 3 ∧
    (runOps (freshBuffer 0 3 1)
        [.consume, .produce, .produce, .produce, .consume]).tailInd < 3 ∧
    (runOps (freshBuffer 0 3 1)
        [.consume, .produce, .produce, .produce, .consume]).NbElems ≤ 3 - 1 ∧
    (((runOps (freshBuffer 0 3 1)
          [.consume, .produce, .produce, .produce, .consume]).headInd : ℤ) -
        ((runOps (freshBuffer 0 3 1)
          [.consume, .produce, .produce, .produce, .consume]).tailInd : ℤ)) %
        ((3 : Nat) : ℤ) =
      ((runOps (freshBuffer 0 3 1)
          [.consume, .produce, .produce, .produce, .consume]).NbElems : ℤ) :=
  reachable_state_invariant 0 1 3
    [.consume, .produce, .produce, .produce, .consume]
    (by decide) (by decide) (by decide)

/-- Number of occurrences of one operation kind in an operation sequence. -/
def countOp (o : CBOp) : List CBOp → Nat
  | [] => 0
  | op :: rest => (if op = o then 1 else 0) + countOp o rest

/-- Full characterization of an all-successful run from a canonical ring
state: the producer acquisitions return the consecutive slots starting at
`p`, the consumer acquisitions return the consecutive slots starting at
`c`, and the run ends in the corresponding canonical state. -/
theorem runTrace_ringState_ok (base e C : Nat) (hC : 2 ≤ C)
    (hCm : C < sizeMod) :
    ∀ (ops : List CBOp) (p c : Nat), c ≤ p → p - c ≤ C - 1 →
      runOk (ringState base e C p c) ops = true →
      c + countOp .consume ops ≤ p + countOp .produce ops ∧
      runTrace (ringState base e C p c) ops =
        ((List.range (countOp .produce ops)).map
            (fun i => base + (p + i) % C * e),
         (List.range (countOp .consume ops)).map
            (fun i => base + (c + i) % C * e),
         ringState base e C (p + countOp .produce ops)
           (c + countOp .consume ops)) := by
  intro ops
  induction ops with
  | nil =>
    intro p c h1 h2 hok
    refine ⟨by simp [countOp]; omega, ?_⟩
    simp [runTrace, countOp]
  | cons op rest ih =>
    intro p c h1 h2 hok
    simp only [runOk, Bool.and_eq_true] at hok
    obtain ⟨hok1, hok2⟩ := hok
    cases op with
    | produce =>
      by_cases hfull : p - c = C - 1
      · exfalso
        rw [show runOp (ringState base e C p c) CBOp.produce =
            emCircularGetHead (ringState base e C p c) from rfl,
          getHead_ringState_full base e C p c hC hCm h1 hfull] at hok1
        simp at hok1
      · have hstep := getHead_ringState_succ base e C p c hC hCm h1 (by omega)
        rw [show runOp (ringState base e C p c) CBOp.produce =
            emCircularGetHead (ringState base e C p c) from rfl,
          hstep] at hok2
        obtain ⟨ihle, iheq⟩ := ih (p + 1) c (by omega) (by omega) hok2
        have hcp : countOp .produce (CBOp.produce :: rest) =
            countOp .produce rest + 1 := by
          simp [countOp]; omega
        have hcc : countOp .consume (CBOp.produce :: rest) =
            countOp .consume rest := by
          simp [countOp]
        refine ⟨by rw [hcp, hcc]; omega, ?_⟩
        simp only [runTrace]
        rw [hstep]
        dsimp only
        rw [iheq, hcp, hcc]
        have hfun : (fun i => base + (p + 1 + i) % C * e) =
            (fun i => base + (p + (i + 1)) % C * e) := by
          funext i
          rw [show p + 1 + i = p + (i + 1) by omega]
        simp only [List.range_succ_eq_map, List.map_cons, List.map_map,
          Prod.mk.injEq, List.cons.injEq]
        refine ⟨⟨by rw [Nat.add_zero], by rw [hfun]; rfl⟩, trivial, ?_⟩
        rw [show p + 1 + countOp CBOp.produce rest =
          p + (countOp CBOp.produce rest + 1) by omega]
    | consume =>
      by_cases hem : c = p
      · exfalso
        subst hem
        rw [show runOp (ringState base e C c c) CBOp.consume =
            emCircularGetTail (ringState base e C c c) from rfl,
          getTail_ringState_empty base e C c] at hok1
        simp at hok1
      · have hstep := getTail_ringState_succ base e C p c hC hCm
          (by omega) h2
        rw [show runOp (ringState base e C p c) CBOp.consume =
            emCircularGetTail (ringState base e C p c) from rfl,
          hstep] at hok2
        obtain ⟨ihle, iheq⟩ := ih p (c + 1) (by omega) (by omega) hok2
        have hcp : countOp .produce (CBOp.consume :: rest) =
            countOp .produce rest := by
          simp [countOp]
        have hcc : countOp .consume (CBOp.consume :: rest) =
            countOp .consume rest + 1 := by
          simp [countOp]; omega
        refine ⟨by rw [hcp, hcc]; omega, ?_⟩
        simp only [runTrace]
        rw [hstep]
        dsimp only
        rw [iheq, hcp, hcc]
        have hfun : (fun i => base + (c + 1 + i) % C * e) =
            (fun i => base + (c + (i + 1)) % C * e) := by
          funext i
          rw [show c + 1 + i = c + (i + 1) by omega]
        simp only [List.range_succ_eq_map, List.map_cons, List.map_map,
          Prod.mk.injEq, List.cons.injEq]
        refine ⟨trivial, ⟨by rw [Nat.add_zero], by rw [hfun]; rfl⟩, ?_⟩
        rw [show c + 1 + countOp CBOp.consume rest =
          c + (countOp CBOp.consume rest + 1) by omega]

/-- C2: FIFO order with matching addresses. For any single-threaded
sequence of producer/consumer acquisitions from a fresh buffer in which
every acquisition succeeds (no overruns), the K-th successful
`emCircularGetTail` call returns exactly the slot pointer that the K-th
successful `emCircularGetHead` call returned. -/
theorem fifo_pointer_match (base e C : Nat) (ops : List CBOp)
    (hC : 2 ≤ C) (he : 1 ≤ e) (hCm : C < sizeMod)
    (hok : runOk (freshBuffer base C e) ops = true) :
    ∀ k, k < (runTrace (freshBuffer base C e) ops).2.1.length →
      ((runTrace (freshBuffer base C e) ops).2.1)[k]? =
        ((runTrace (freshBuffer base C e) ops).1)[k]? := by
  have hfresh : freshBuffer base C e = ringState base e C 0 0 := by
    simp [freshBuffer, ringState]
  rw [hfresh] at hok ⊢
  obtain ⟨hle, heq⟩ :=
    runTrace_ringState_ok base e C hC hCm ops 0 0 le_rfl (by omega) hok
  rw [heq]
  intro k hk
  simp only [List.length_map, List.length_range] at hk
  have hkp : k < countOp .produce ops := by omega
  simp [List.getElem?_map, List.getElem?_range, hk, hkp]

/-- Witness for `fifo_pointer_match`: capacity 4, two produces, one
consume, one produce, two consumes; the 2nd consumed pointer matches the
2nd produced pointer. -/
theorem fifo_pointer_match_witness :
    ((runTrace (freshBuffer 0 4 1)
        [.produce, .produce, .consume, .produce, .consume, .consume]).2.1)[1]? =
      ((runTrace (freshBuffer 0 4 1)
        [.produce, .produce, .consume, .produce, .consume, .consume]).1)[1]? :=
  fifo_pointer_match 0 1 4
    [.produce, .produce, .consume, .produce, .consume, .consume]
    (by decide) (by decide) (by decide) (by decide) 1 (by decide)

/-- Witness for `getTail_underflow_guard_never_fires` at a concrete
non-empty state (capacity 3, one element at tail index 0). -/
theorem getTail_underflow_guard_never_fires_witness :
    ((emCircularGetTail
          { tailInd := 0, headInd := 1, startBuffer := 0,
            elemSize := 1, maxElems := 3, NbElems := 1 }).1 = none ↔
        emCircularIsEmpty
          { tailInd := 0, headInd := 1, startBuffer := 0,
            elemSize := 1, maxElems := 3, NbElems := 1 } = .CB_true) ∧
    (emCircularIsEmpty
          { tailInd := 0, headInd := 1, startBuffer := 0,
            elemSize := 1, maxElems := 3, NbElems := 1 } = .CB_false →
      (emCircularGetTail
          { tailInd := 0, headInd := 1, startBuffer := 0,
            elemSize := 1, maxElems := 3, NbElems := 1 }).1 =
        some (0 + 0 * 1)) :=
  getTail_underflow_guard_never_fires
    { tailInd := 0, headInd := 1, startBuffer := 0,
      elemSize := 1, maxElems := 3, NbElems := 1 }
